import Mathlib

/-!
Verification of the secret-key / public-key serde codecs
(`src/elliptic/curves/serde.rs`).

The codec converts a secret key to a minimal lowercase hex string and a
public key to a two-field record `{x, y}` of hex strings.  The big-integer
hex conversion (`BigInt::to_hex` / `BigInt::from_hex`) and the key wrappers
(`SK`, `PK`) belong to parts of the crate outside the provided source, so
they are modelled from the spec; the serialize / deserialize visitors are
embedded from the source.
-/

/-- Outcome of a deserialization visitor call: a successful value, a
recoverable serde error returned to the caller (`Err(E)` in the source),
or an unconditional abort of the process (a Rust `panic`, which the
visitor cannot convert into an error value). -/
inductive DResult (α : Type) where
  | ok : α → DResult α
  | err : DResult α
  | panic : DResult α
deriving DecidableEq

/-- Modelled from the spec: a secret key is an opaque wrapper owning one
arbitrary-precision non-negative integer scalar (`SK`). -/
structure SK where
  scalar : Nat
deriving DecidableEq

/-- Modelled from the spec: a curve point is a pair `(x, y)` of
arbitrary-precision non-negative integers. -/
structure Point where
  x : Nat
  y : Nat
deriving DecidableEq

/-- Modelled from the spec: a public key is an opaque wrapper owning a
curve point (`PK`). -/
structure PK where
  point : Point
deriving DecidableEq

/-- Modelled from the spec: the external core's "secret key from integer"
constructor (`SK::from_big_int`). -/
def SK.from_big_int (n : Nat) : SK := ⟨n⟩

/-- Modelled from the spec: the external core's scalar extraction
(`SK::to_big_int`). -/
def SK.to_big_int (k : SK) : Nat := k.scalar

/-- Modelled from the spec: the external core's "public key from point"
constructor (`PK::to_key`). -/
def PK.to_key (p : Point) : PK := ⟨p⟩

/-- Modelled from the spec: the external core's point extraction
(`PK::to_point`). -/
def PK.to_point (k : PK) : Point := k.point

/-- The lowercase hex digit character for a value below 16
(`'0'` has code 48, `'a'` has code 97). -/
def hexDigit (d : Nat) : Char :=
  if d < 10 then Char.ofNat (48 + d) else Char.ofNat (87 + d)

/-- Digit-accumulating loop of `toHex`.  The first argument is fuel that
bounds the recursion; `toHex` passes the number itself, which always
suffices because the number shrinks by a factor of 16 each step. -/
def toHexAux : Nat → Nat → List Char → List Char
  | 0, _, acc => acc
  | fuel + 1, n, acc =>
    if n = 0 then acc else toHexAux fuel (n / 16) (hexDigit (n % 16) :: acc)

/-- Modelled from the spec: `BigInt::to_hex` — the minimal lowercase hex
digit sequence representing the value; no sign, no prefix, no padding;
zero is the single digit `"0"`. -/
def toHex (n : Nat) : String :=
  if n = 0 then "0" else String.mk (toHexAux n n [])

/-- The value of one hex digit character, case-insensitive; `none` for a
character outside `[0-9a-fA-F]`. -/
def hexVal (c : Char) : Option Nat :=
  if 48 ≤ c.toNat ∧ c.toNat ≤ 57 then some (c.toNat - 48)
  else if 97 ≤ c.toNat ∧ c.toNat ≤ 102 then some (c.toNat - 87)
  else if 65 ≤ c.toNat ∧ c.toNat ≤ 70 then some (c.toNat - 55)
  else none

/-- Left-to-right accumulation of hex digit values; fails at the first
character that is not a hex digit. -/
def fromHexAux : List Char → Nat → Option Nat
  | [], acc => some acc
  | c :: cs, acc =>
    match hexVal c with
    | some d => fromHexAux cs (16 * acc + d)
    | none => none

/-- Modelled from the spec: `BigInt::from_hex` — parses hex digits
case-insensitively, failing on an empty string or on any character
outside `[0-9a-fA-F]`. -/
def fromHex (s : String) : Option Nat :=
  if s.data = [] then none else fromHexAux s.data 0

/-- `serde_secret_key::serialize`: the hex string of the key's scalar. -/
def skSerialize (sk : SK) : String := toHex sk.to_big_int

/-- `SecretKeyVisitor::visit_str`: builds the secret key from the parsed
hex scalar and unconditionally wraps it in `Ok`.  The source has no
error-returning path; a failure of the hex parse inside `BigInt::from_hex`
aborts the process, which the embedding records as `panic`. -/
def skVisitStr (s : String) : DResult SK :=
  match fromHex s with
  | some n => DResult.ok (SK.from_big_int n)
  | none => DResult.panic

/-- `serde_secret_key::deserialize`: the deserializer hands the input
string to `SecretKeyVisitor`. -/
def skDeserialize (s : String) : DResult SK := skVisitStr s

/-- `serde_public_key::serialize`: a two-field record with the hex
strings of the point's coordinates, in the order `x` then `y`. -/
def pkSerialize (pk : PK) : List (String × String) :=
  [("x", toHex pk.to_point.x), ("y", toHex pk.to_point.y)]

/-- `PublicKeyVisitor::visit_map`: folds over the record's fields with
both coordinates initialised to zero; `"x"`/`"y"` overwrite the current
coordinate with the parsed hex value (a parse failure aborts), any other
field name hits the source's unconditional abort arm. -/
def pkVisitMap : List (String × String) → Nat → Nat → DResult PK
  | [], x, y => DResult.ok (PK.to_key ⟨x, y⟩)
  | (k, v) :: rest, x, y =>
    if k = "x" then
      match fromHex v with
      | some n => pkVisitMap rest n y
      | none => DResult.panic
    else if k = "y" then
      match fromHex v with
      | some n => pkVisitMap rest x n
      | none => DResult.panic
    else DResult.panic

/-- `serde_public_key::deserialize`: the deserializer hands the record's
field stream to `PublicKeyVisitor` (coordinates start at zero). -/
def pkDeserialize (r : List (String × String)) : DResult PK := pkVisitMap r 0 0

/-- A lowercase hex digit character: `[0-9]` or `[a-f]`. -/
def isLowerHexChar (c : Char) : Bool :=
  (48 ≤ c.toNat && c.toNat ≤ 57) || (97 ≤ c.toNat && c.toNat ≤ 102)

/-- Canonical hex text: every character a lowercase hex digit (hence no
uppercase letters), no leading zero digit except for the single-digit
string `"0"`, and no `0x` prefix. -/
def canonicalHex (s : String) : Prop :=
  s.data.all isLowerHexChar = true ∧
    (s.data.take 1 = ['0'] → s.data = ['0']) ∧ s.data.take 2 ≠ ['0', 'x']

/-- A record field the decoder consumes without aborting: its name is
`"x"` or `"y"` and its value parses as hex. -/
def wfField (f : String × String) : Prop :=
  (f.1 = "x" ∨ f.1 = "y") ∧ (fromHex f.2).isSome = true

/-- A record all of whose fields the decoder consumes without aborting. -/
def wfRecord (r : List (String × String)) : Prop :=
  ∀ f ∈ r, wfField f

instance : DecidablePred wfField := fun f => by
  unfold wfField; infer_instance

instance (r : List (String × String)) : Decidable (wfRecord r) := by
  unfold wfRecord; infer_instance

/-- The parsed value of the last occurrence of field `k` in the record,
or the default `d` when `k` never occurs — exactly how the visitor's
fold treats one coordinate. -/
def lastField (k : String) : List (String × String) → Nat → Nat
  | [], d => d
  | (k', v) :: rest, d =>
    if k' = k then lastField k rest ((fromHex v).getD 0) else lastField k rest d

lemma toHexAux_zero (fuel : Nat) (acc : List Char) : toHexAux fuel 0 acc = acc := by
  cases fuel <;> simp [toHexAux]

lemma hexVal_hexDigit : ∀ d, d < 16 → hexVal (hexDigit d) = some d := by decide

lemma hexDigit_lower : ∀ d, d < 16 → isLowerHexChar (hexDigit d) = true := by decide

lemma hexDigit_ne_zero : ∀ d, d < 16 → d ≠ 0 → hexDigit d ≠ '0' := by decide

lemma fromHexAux_toHexAux (n : Nat) :
    ∀ fuel, n ≤ fuel → ∀ (cs : List Char) (a : Nat),
      ∃ L, fromHexAux (toHexAux fuel n cs) a = fromHexAux cs (a * 16 ^ L + n) := by
  induction n using Nat.strong_induction_on with
  | _ n ih =>
    intro fuel hfuel cs a
    cases fuel with
    | zero =>
      refine ⟨0, ?_⟩
      have hn : n = 0 := Nat.le_zero.mp hfuel
      subst hn
      simp [toHexAux]
    | succ f =>
      by_cases hn : n = 0
      · subst hn
        exact ⟨0, by simp [toHexAux]⟩
      · have hlt : n / 16 < n := Nat.div_lt_self (Nat.pos_of_ne_zero hn) (by omega)
        have hle : n / 16 ≤ f := by omega
        obtain ⟨L, hL⟩ := ih (n / 16) hlt f hle (hexDigit (n % 16) :: cs) a
        refine ⟨L + 1, ?_⟩
        have hstep : toHexAux (f + 1) n cs
            = toHexAux f (n / 16) (hexDigit (n % 16) :: cs) := by
          simp [toHexAux, hn]
        rw [hstep, hL]
        have hd : hexVal (hexDigit (n % 16)) = some (n % 16) :=
          hexVal_hexDigit _ (Nat.mod_lt _ (by omega))
        simp only [fromHexAux, hd]
        congr 1
        have hdm : 16 * (n / 16) + n % 16 = n := Nat.div_add_mod n 16
        ring_nf
        omega

lemma toHexAux_shape (n : Nat) :
    ∀ fuel, n ≠ 0 → n ≤ fuel → ∀ cs : List Char,
      ∃ c l, toHexAux fuel n cs = c :: (l ++ cs) ∧ isLowerHexChar c = true ∧
        c ≠ '0' ∧ ∀ ch ∈ l, isLowerHexChar ch = true := by
  induction n using Nat.strong_induction_on with
  | _ n ih =>
    intro fuel hn hfuel cs
    cases fuel with
    | zero => omega
    | succ f =>
      have hstep : toHexAux (f + 1) n cs
          = toHexAux f (n / 16) (hexDigit (n % 16) :: cs) := by
        simp [toHexAux, hn]
      by_cases h16 : n / 16 = 0
      · refine ⟨hexDigit (n % 16), [], ?_, ?_, ?_, by simp⟩
        · rw [hstep, h16, toHexAux_zero]
          simp
        · exact hexDigit_lower _ (Nat.mod_lt _ (by omega))
        · exact hexDigit_ne_zero _ (Nat.mod_lt _ (by omega)) (by omega)
      · have hlt : n / 16 < n := Nat.div_lt_self (Nat.pos_of_ne_zero hn) (by omega)
        obtain ⟨c, l, heq, hc, hc0, hl⟩ :=
          ih (n / 16) hlt f h16 (by omega) (hexDigit (n % 16) :: cs)
        refine ⟨c, l ++ [hexDigit (n % 16)], ?_, hc, hc0, ?_⟩
        · rw [hstep, heq]
          simp
        · intro ch hch
          rcases List.mem_append.mp hch with h | h
          · exact hl ch h
          · have : ch = hexDigit (n % 16) := by simpa using h
            subst this
            exact hexDigit_lower _ (Nat.mod_lt _ (by omega))

/-- The hex codec round-trips: parsing the minimal hex rendering of a
non-negative integer recovers the integer. -/
lemma fromHex_toHex (n : Nat) : fromHex (toHex n) = some n := by
  by_cases hn : n = 0
  · subst hn
    decide
  · obtain ⟨c, l, heq, -, -, -⟩ := toHexAux_shape n n hn le_rfl []
    obtain ⟨L, hL⟩ := fromHexAux_toHexAux n n le_rfl [] 0
    have hdata : (toHex n).data = toHexAux n n [] := by
      simp [toHex, hn]
    rw [List.append_nil] at heq
    rw [fromHex, hdata, heq, if_neg (by simp)]
    rw [← heq, hL]
    simp [fromHexAux]

/-- A character outside the hex-digit class makes the parse loop fail. -/
lemma fromHexAux_none :
    ∀ (cs : List Char) (a : Nat), (∃ c ∈ cs, hexVal c = none) →
      fromHexAux cs a = none := by
  intro cs
  induction cs with
  | nil => intro a h; simp at h
  | cons c rest ih =>
    intro a h
    rcases h with ⟨c', hc', hval⟩
    rcases List.mem_cons.mp hc' with h | h
    · subst h
      simp [fromHexAux, hval]
    · cases hv : hexVal c with
      | none => simp [fromHexAux, hv]
      | some d =>
        simp only [fromHexAux, hv]
        exact ih _ ⟨c', h, hval⟩

lemma lastField_of_absent (k : String) :
    ∀ (r : List (String × String)) (d : Nat), (∀ f ∈ r, f.1 ≠ k) →
      lastField k r d = d := by
  intro r
  induction r with
  | nil => intro d _; rfl
  | cons f rest ih =>
    intro d h
    obtain ⟨k', v⟩ := f
    have hk : k' ≠ k := h (k', v) (List.mem_cons_self _ _)
    simp only [lastField, if_neg hk]
    exact ih d fun g hg => h g (List.mem_cons_of_mem _ hg)

lemma pkVisitMap_wf :
    ∀ (r : List (String × String)) (x y : Nat), wfRecord r →
      pkVisitMap r x y
        = DResult.ok (PK.to_key ⟨lastField "x" r x, lastField "y" r y⟩) := by
  intro r
  induction r with
  | nil => intro x y _; rfl
  | cons f rest ih =>
    intro x y hwf
    obtain ⟨k, v⟩ := f
    have hf := hwf (k, v) (List.mem_cons_self _ _)
    have hrest : wfRecord rest := fun g hg => hwf g (List.mem_cons_of_mem _ hg)
    obtain ⟨hk, hv⟩ := hf
    obtain ⟨n, hn⟩ := Option.isSome_iff_exists.mp hv
    rcases hk with hx | hy
    · subst hx
      simp only at hn
      simp [pkVisitMap, hn, lastField, ih _ _ hrest]
    · subst hy
      simp only at hn
      simp [pkVisitMap, hn, lastField, ih _ _ hrest]

lemma pkVisitMap_unknown_field :
    ∀ (r : List (String × String)) (x y : Nat),
      (∃ f ∈ r, f.1 ≠ "x" ∧ f.1 ≠ "y") → pkVisitMap r x y = DResult.panic := by
  intro r
  induction r with
  | nil => intro x y h; simp at h
  | cons f rest ih =>
    intro x y h
    obtain ⟨k, v⟩ := f
    by_cases hkx : k = "x"
    · subst hkx
      have hrest : ∃ f ∈ rest, f.1 ≠ "x" ∧ f.1 ≠ "y" := by
        rcases h with ⟨g, hg, hgx, hgy⟩
        rcases List.mem_cons.mp hg with h | h
        · exact absurd (congrArg Prod.fst h) (by simpa using hgx)
        · exact ⟨g, h, hgx, hgy⟩
      simp only [pkVisitMap, if_pos rfl]
      cases hv : fromHex v with
      | some n => exact ih _ _ hrest
      | none => rfl
    · by_cases hky : k = "y"
      · subst hky
        have hrest : ∃ f ∈ rest, f.1 ≠ "x" ∧ f.1 ≠ "y" := by
          rcases h with ⟨g, hg, hgx, hgy⟩
          rcases List.mem_cons.mp hg with h | h
          · exact absurd (congrArg Prod.fst h) (by simpa using hgy)
          · exact ⟨g, h, hgx, hgy⟩
        simp only [pkVisitMap, if_neg (by decide : ¬("y" : String) = "x"), if_pos rfl]
        cases hv : fromHex v with
        | some n => exact ih _ _ hrest
        | none => rfl
      · simp only [pkVisitMap, if_neg hkx, if_neg hky]

lemma lastField_of_mem_nodup (k v : String) :
    ∀ (r : List (String × String)) (d : Nat), (r.map Prod.fst).Nodup →
      (k, v) ∈ r → lastField k r d = (fromHex v).getD 0 := by
  intro r
  induction r with
  | nil => intro d _ hm; simp at hm
  | cons f rest ih =>
    intro d hnd hm
    obtain ⟨k', v'⟩ := f
    have hnd' := hnd
    rw [List.map_cons, List.nodup_cons] at hnd'
    obtain ⟨hk'_notin, hnd_rest⟩ := hnd'
    rcases List.mem_cons.mp hm with h | h
    · have hk : k' = k := (congrArg Prod.fst h.symm)
      have hv : v' = v := (congrArg Prod.snd h.symm)
      subst hk; subst hv
      simp only [lastField, if_pos rfl]
      have habs : ∀ f ∈ rest, f.1 ≠ k' := by
        intro g hg hgk
        exact hk'_notin (List.mem_map.mpr ⟨g, hg, hgk⟩)
      exact lastField_of_absent k' rest _ habs
    · have hk : k' ≠ k := by
        intro he
        subst he
        exact hk'_notin (List.mem_map.mpr ⟨(k', v), h, rfl⟩)
      simp only [lastField, if_neg hk]
      exact ih d hnd_rest h

lemma lastField_perm (k : String) (r r' : List (String × String)) (d : Nat)
    (hnd : (r.map Prod.fst).Nodup) (hp : r.Perm r') :
    lastField k r d = lastField k r' d := by
  have hnd' : (r'.map Prod.fst).Nodup := ((hp.map Prod.fst).nodup_iff).mp hnd
  by_cases h : ∃ v, (k, v) ∈ r
  · obtain ⟨v, hv⟩ := h
    rw [lastField_of_mem_nodup k v r d hnd hv,
      lastField_of_mem_nodup k v r' d hnd' (hp.mem_iff.mp hv)]
  · have habs : ∀ f ∈ r, f.1 ≠ k := by
      intro g hg hgk
      exact h ⟨g.2, by rw [← hgk]; exact hg⟩
    have habs' : ∀ f ∈ r', f.1 ≠ k := fun g hg => habs g (hp.mem_iff.mpr hg)
    rw [lastField_of_absent k r d habs, lastField_of_absent k r' d habs']

/-- The minimal hex rendering of any non-negative integer is canonical:
lowercase hex digits only, no leading zero except `"0"`, no `0x`. -/
lemma canonicalHex_toHex (n : Nat) : canonicalHex (toHex n) := by
  by_cases hn : n = 0
  · subst hn
    refine ⟨by decide, by decide, by decide⟩
  · obtain ⟨c, l, heq, hc, hc0, hl⟩ := toHexAux_shape n n hn le_rfl []
    rw [List.append_nil] at heq
    have hdata : (toHex n).data = c :: l := by
      simp [toHex, hn, heq]
    refine ⟨?_, ?_, ?_⟩
    · rw [hdata, List.all_cons, hc, Bool.true_and, List.all_eq_true]
      exact hl
    · intro htake
      rw [hdata] at htake
      simp at htake
      exact absurd htake hc0
    · rw [hdata]
      intro htake
      cases l with
      | nil => simp at htake
      | cons c2 l2 =>
        rw [List.take_succ_cons] at htake
        injection htake with h1 h2
        exact hc0 h1

/-- C1: for every non-negative integer `v`, decoding the string produced
by encoding the secret key `fromInteger(v)` yields that same secret key:
`decode(encode(fromInteger(v))) = fromInteger(v)`. -/
theorem secret_key_round_trip (v : Nat) :
    skDeserialize (skSerialize (SK.from_big_int v))
      = DResult.ok (SK.from_big_int v) := by
  show skVisitStr (toHex v) = DResult.ok (SK.from_big_int v)
  simp [skVisitStr, fromHex_toHex]

/-- C2: for every curve point `p`, decoding the two-field record produced
by encoding the public key `fromPoint(p)` yields that same public key:
`decode(encode(fromPoint(p))) = fromPoint(p)`. -/
theorem public_key_round_trip (p : Point) :
    pkDeserialize (pkSerialize (PK.to_key p)) = DResult.ok (PK.to_key p) := by
  show pkVisitMap [("x", toHex p.x), ("y", toHex p.y)] 0 0
      = DResult.ok (PK.to_key p)
  simp [pkVisitMap, fromHex_toHex]

/-- C3 (counterexample): the input `"0x1"` contains `'x'`, a character
outside `[0-9a-fA-F]`, yet secret-key decode does not surface a
recoverable decode error for it. -/
theorem secret_key_bad_hex_not_err :
    ('x' ∈ "0x1".data ∧ hexVal 'x' = none) ∧
      skDeserialize "0x1" ≠ DResult.err := by
  decide

/-- C3 (amended): for every input string containing a character outside
`[0-9a-fA-F]`, secret-key decode neither succeeds nor returns a
recoverable decode error: the hex parse failure aborts the
deserialization process (a panic). -/
theorem secret_key_bad_hex_panics (s : String) :
    (∃ c ∈ s.data, hexVal c = none) → skDeserialize s = DResult.panic := by
  intro h
  have hne : s.data ≠ [] := by
    rcases h with ⟨c, hc, -⟩
    exact List.ne_nil_of_mem hc
  have hnone : fromHex s = none := by
    rw [fromHex, if_neg hne]
    exact fromHexAux_none s.data 0 h
  simp [skDeserialize, skVisitStr, hnone]

theorem secret_key_bad_hex_panics_witness :
    skDeserialize "zz" = DResult.panic :=
  secret_key_bad_hex_panics "zz" ⟨'z', by decide, by decide⟩

/-- C4: every hex string produced by secret-key encode, and both
coordinate strings produced by public-key encode, are canonical: no
leading zero digit (except the single digit `"0"`), no uppercase letters,
no `0x` prefix. -/
theorem serialize_canonical_hex :
    (∀ k : SK, canonicalHex (skSerialize k)) ∧
      ∀ p : PK, ∀ f ∈ pkSerialize p, canonicalHex f.2 := by
  refine ⟨fun k => canonicalHex_toHex _, fun p f hf => ?_⟩
  rcases List.mem_cons.mp hf with h | h
  · subst h
    exact canonicalHex_toHex _
  · have h' : f = ("y", toHex p.to_point.y) := by simpa using h
    subst h'
    exact canonicalHex_toHex _

theorem serialize_canonical_hex_witness :
    canonicalHex (skSerialize (SK.from_big_int 123456)) ∧
      canonicalHex ("x", toHex 5).2 :=
  ⟨serialize_canonical_hex.1 (SK.from_big_int 123456),
    serialize_canonical_hex.2 (PK.to_key ⟨5, 7⟩) ("x", toHex 5) (by decide)⟩

/-- C5: decoding any public-key record containing a field name other than
`"x"` or `"y"` hits the source's unconditional abort (a panic), not a
recoverable error returned to the caller. -/
theorem unknown_field_panics (r : List (String × String)) :
    (∃ f ∈ r, f.1 ≠ "x" ∧ f.1 ≠ "y") → pkDeserialize r = DResult.panic :=
  fun h => pkVisitMap_unknown_field r 0 0 h

theorem unknown_field_panics_witness :
    pkDeserialize [("z", "1")] = DResult.panic :=
  unknown_field_panics [("z", "1")] ⟨("z", "1"), by decide, by decide, by decide⟩

/-- C6: decoding a public-key record whose fields are otherwise
consumable (names among `x`/`y`, values valid hex) but which omits the
`x` field or the `y` field — including the empty record — succeeds at the
codec level, defaulting the missing coordinate to zero and applying the
point-to-key constructor to the resulting point. -/
theorem missing_field_defaults_to_zero (r : List (String × String))
    (hwf : wfRecord r) :
    ((∀ f ∈ r, f.1 ≠ "x") →
        pkDeserialize r = DResult.ok (PK.to_key ⟨0, lastField "y" r 0⟩)) ∧
      ((∀ f ∈ r, f.1 ≠ "y") →
        pkDeserialize r = DResult.ok (PK.to_key ⟨lastField "x" r 0, 0⟩)) := by
  constructor
  · intro habs
    rw [pkDeserialize, pkVisitMap_wf r 0 0 hwf, lastField_of_absent "x" r 0 habs]
  · intro habs
    rw [pkDeserialize, pkVisitMap_wf r 0 0 hwf, lastField_of_absent "y" r 0 habs]

theorem missing_field_defaults_to_zero_witness :
    pkDeserialize [("y", "2")] = DResult.ok (PK.to_key ⟨0, 2⟩) ∧
      pkDeserialize [] = DResult.ok (PK.to_key ⟨0, 0⟩) :=
  ⟨(missing_field_defaults_to_zero [("y", "2")] (by decide)).1 (by decide),
    (missing_field_defaults_to_zero [] (by decide)).1 (by decide)⟩

/-- C7: on records the decoder consumes without aborting, the result is
invariant under reordering of the fields (for records without duplicate
field names), and in general the last occurrence of a field name silently
overwrites earlier ones. -/
theorem field_order_irrelevant_last_wins :
    (∀ r r' : List (String × String), wfRecord r →
        (r.map Prod.fst).Nodup → r.Perm r' → pkDeserialize r = pkDeserialize r') ∧
      ∀ r : List (String × String), wfRecord r →
        pkDeserialize r
          = DResult.ok (PK.to_key ⟨lastField "x" r 0, lastField "y" r 0⟩) := by
  constructor
  · intro r r' hwf hnd hp
    have hwf' : wfRecord r' := fun f hf => hwf f (hp.mem_iff.mpr hf)
    rw [pkDeserialize, pkDeserialize, pkVisitMap_wf r 0 0 hwf,
      pkVisitMap_wf r' 0 0 hwf', lastField_perm "x" r r' 0 hnd hp,
      lastField_perm "y" r r' 0 hnd hp]
  · intro r hwf
    exact pkVisitMap_wf r 0 0 hwf

theorem field_order_irrelevant_last_wins_witness :
    pkDeserialize [("x", "1"), ("y", "2")]
        = pkDeserialize [("y", "2"), ("x", "1")] ∧
      pkDeserialize [("x", "1"), ("x", "2")]
        = DResult.ok (PK.to_key ⟨2, 0⟩) :=
  ⟨field_order_irrelevant_last_wins.1 [("x", "1"), ("y", "2")]
      [("y", "2"), ("x", "1")] (by decide) (by decide)
      (List.Perm.swap ("y", "2") ("x", "1") []),
    field_order_irrelevant_last_wins.2 [("x", "1"), ("x", "2")] (by decide)⟩

/-- C8: encoding the secret key with scalar `123456` yields exactly
`"1e240"`, and decoding `"1e240"` yields the secret key whose underlying
scalar is `123456`. -/
theorem secret_key_concrete_123456 :
    skSerialize (SK.from_big_int 123456) = "1e240" ∧
      skDeserialize "1e240" = DResult.ok (SK.from_big_int 123456) := by
  decide

/-- C9: encoding is deterministic — equal secret keys always produce the
same string and equal public keys the same record. -/
theorem serialize_deterministic :
    (∀ k k' : SK, k = k' → skSerialize k = skSerialize k') ∧
      ∀ p p' : PK, p = p' → pkSerialize p = pkSerialize p' :=
  ⟨fun k k' h => by rw [h], fun p p' h => by rw [h]⟩

theorem serialize_deterministic_witness :
    skSerialize (SK.from_big_int 7) = skSerialize (SK.from_big_int 7) ∧
      pkSerialize (PK.to_key ⟨1, 2⟩) = pkSerialize (PK.to_key ⟨1, 2⟩) :=
  ⟨serialize_deterministic.1 (SK.from_big_int 7) (SK.from_big_int 7) rfl,
    serialize_deterministic.2 (PK.to_key ⟨1, 2⟩) (PK.to_key ⟨1, 2⟩) rfl⟩

/-- C10 (counterexample): the secret-key string visitor does not return a
success value for every input string — on `"**"`, whose characters are
not hex digits, it aborts instead of returning `Ok`. -/
theorem visit_str_not_total_success :
    skVisitStr "**" = DResult.panic := by
  decide

/-- C10 (amended): the secret-key string visitor has no code path
returning a recoverable error value — for every input it either returns
`Ok` of the scalar constructor applied to the parsed hex value, or (on
malformed hex) aborts — so a malformed hex string can never be reported
as a recoverable decode error by this codec. -/
theorem visit_str_no_error_path (s : String) :
    skVisitStr s ≠ DResult.err ∧
      ∀ n, fromHex s = some n → skVisitStr s = DResult.ok (SK.from_big_int n) := by
  refine ⟨?_, ?_⟩
  · cases h : fromHex s <;> simp [skVisitStr, h]
  · intro n hn
    simp [skVisitStr, hn]

theorem visit_str_no_error_path_witness :
    skVisitStr "1e240" ≠ DResult.err ∧
      skVisitStr "1e240" = DResult.ok (SK.from_big_int 123456) :=
  ⟨(visit_str_no_error_path "1e240").1,
    (visit_str_no_error_path "1e240").2 123456 (by decide)⟩
